import Mathlib

set_option autoImplicit false

/-!
Verification development for the Hugo-derived static-site build engine:
the page reference index (`hugolib/page_collections.go`), the layout
cascade resolver (`output` package), the template identifier
normalization pass (`tpl` package) and the build orchestrator
(`hugolib` site code).

Go strings are modeled as Lean `String`; the relevant Go standard
library string and path functions are re-implemented here over the
character list of a string (all inputs in this development are ASCII,
where Go's Unicode-aware functions agree with the character-wise
models below).
-/

/-- Model of Go `strings.HasPrefix s pre`. -/
def strStarts (s pre : String) : Bool := pre.data.isPrefixOf s.data

/-- Model of Go `strings.TrimPrefix s pre`. -/
def strTrimLead (s pre : String) : String :=
  if strStarts s pre then String.mk (s.data.drop pre.data.length) else s

/-- Model of Go `strings.ToLower` (ASCII; Go's Unicode mapping agrees on ASCII). -/
def goToLower (s : String) : String := String.mk (s.data.map Char.toLower)

/-- Helper for `goSplitChar`: accumulates the current field in reverse. -/
def splitCharAux (sep : Char) : List Char → List Char → List String
  | [], acc => [String.mk acc.reverse]
  | c :: cs, acc =>
    if c = sep then String.mk acc.reverse :: splitCharAux sep cs []
    else splitCharAux sep cs (c :: acc)

/-- Model of Go `strings.Split s sep` for a one-character separator
(the only separators the embedded code uses are "/" and "."). -/
def goSplitChar (sep : Char) (s : String) : List String := splitCharAux sep s.data []

/-- Model of Go `strings.Join xs sep`. -/
def goJoin (sep : String) : List String → String
  | [] => ""
  | [x] => x
  | x :: y :: xs => x ++ sep ++ goJoin sep (y :: xs)

/-- Element processing of Go `path.Clean`: drops empty and "." elements and
resolves ".." against the element stack exactly as the Go scan does
(when rooted a leading ".." is dropped, otherwise it is kept). -/
def cleanStack (rooted : Bool) (elems : List String) : List String :=
  (elems.foldl (fun st e =>
    if e = "" ∨ e = "." then st
    else if e = ".." then
      match st with
      | [] => if rooted then [] else [".."]
      | x :: rest => if x = ".." then e :: x :: rest else rest
    else e :: st) []).reverse

/-- Model of Go `path.Clean`. -/
def goClean (p : String) : String :=
  if p = "" then "."
  else
    let rooted := strStarts p "/"
    let out := goJoin "/" (cleanStack rooted (goSplitChar '/' p))
    if rooted then "/" ++ out
    else if out = "" then "." else out

/-- Model of Go `path.Join`: skip leading empty elements, then clean the
slash-join of the rest. -/
def goPathJoin : List String → String
  | [] => ""
  | e :: rest => if e = "" then goPathJoin rest else goClean (goJoin "/" (e :: rest))

/-!
## Page model and the reference index (`hugolib/page_collections.go`)

A Go `*Page` is modeled as a `Page` value; Go pointer identity is
modeled by structural equality (every page in a build is constructed
once from a distinct source file, so distinct pages have distinct
`sourceRef`).  `sourceRef` models the result of `p.absoluteSourceRef()`
(defined in page code outside the analyzed files; per the spec it is
the page's canonical content-root-relative source path).
-/

structure Page where
  kind : String
  sections : List String
  sourceRef : String
  lang : String
  title : String
  deriving DecidableEq

/-- An entry of the reference index: Go stores either a `*Page` or the
shared `ambiguityFlag` page; the flag is a distinguished sentinel pointer,
modeled as a separate constructor. -/
inductive IndexEntry where
  | page (p : Page)
  | ambiguity
  deriving DecidableEq

/-- The lazily built reference index `map[string]interface{}`, modeled as a
function from lookup key to the stored entry. -/
def PageIndex : Type := String → Option IndexEntry

/-- Model of `PageCollections.getFromCache`: a missing key yields
`(nil, nil)`, a real page is returned, and the ambiguity sentinel
becomes the "page reference %q is ambiguous" error (Go's `%q` renders
the plain quoted string for the references considered here). -/
def getFromCache (idx : PageIndex) (ref : String) : Option Page × Option String :=
  match idx ref with
  | none => (none, none)
  | some (IndexEntry.page p) => (some p, none)
  | some IndexEntry.ambiguity =>
      (none, some ("page reference \"" ++ ref ++ "\" is ambiguous"))

/-- Model of the `add` closure inside `refreshPageCaches`' `indexLoader`:
a free key takes the page; a key bound to a different page flips to the
ambiguity sentinel; re-adding the bound page, or adding to an already
ambiguous key, leaves the index unchanged. -/
def addToIndex (index : PageIndex) (ref : String) (p : Page) : PageIndex :=
  match index ref with
  | none => fun r => if r = ref then some (IndexEntry.page p) else index r
  | some existing =>
      if existing ≠ IndexEntry.ambiguity ∧ existing ≠ IndexEntry.page p then
        fun r => if r = ref then some IndexEntry.ambiguity else index r
      else index

/-- Folding a sequence of `(key, page)` insertions over an index, in order. -/
def addAll (index : PageIndex) (inserts : List (String × Page)) : PageIndex :=
  inserts.foldl (fun m kp => addToIndex m kp.1 kp.2) index

/-- A single lookup attempt as `getPageNew` guards it: succeed only when
`getFromCache` returned a non-nil page and a nil error. -/
def tryKey (idx : PageIndex) (k : String) : Option Page :=
  match getFromCache idx k with
  | (some p, none) => some p
  | _ => none

/-- The page-relative key built by `getPageNew` step 2:
`path.Join("/", strings.Join(context.sections, "/"), ref)`. -/
def pagePath (ctx : Page) (ref : String) : String :=
  goPathJoin ["/", goJoin "/" ctx.sections, ref]

/-- The final fallback of `getPageNew`.  Note that the Go source reads
`context, err := c.getFromCache(ref)`: the short variable declaration
re-uses the `context` parameter, so the subsequent `context != nil`
test inspects the lookup result (which is always nil when `err` is
non-nil), not the caller's context page. -/
def getPageNewStep4 (idx : PageIndex) (ref : String) : Option Page × Option String :=
  let ref2 := strTrimLead ref "/"
  match getFromCache idx ref2 with
  | (ctx2, some e) =>
      (match ctx2 with
       | some c =>
           (none, some ("failed to resolve page relative to page \"" ++
             c.sourceRef ++ "\": " ++ e))
       | none => (none, some ("failed to resolve page: " ++ e)))
  | (p, none) => (p, none)

/-- Model of `PageCollections.getPageNew`: the four lookup strategies in
source order, each taken only under its guard, with the first non-nil,
non-error hit returned immediately. -/
def getPageNew (idx : PageIndex) (context : Option Page) (ref : String) :
    Option Page × Option String :=
  match (if strStarts ref "/" then tryKey idx ref else none) with
  | some p => (some p, none)
  | none =>
    match context.bind (fun ctx => tryKey idx (pagePath ctx ref)) with
    | some p => (some p, none)
    | none =>
      match (if !strStarts ref "/" then tryKey idx ("/" ++ ref) else none) with
      | some p => (some p, none)
      | none => getPageNewStep4 idx ref

/-- The four candidate keys of `getPageNew` in attempt order, each present
only under its guard, as the spec describes them. -/
def candidateKeys (context : Option Page) (ref : String) : List String :=
  (if strStarts ref "/" then [ref] else [])
    ++ (match context with
        | some c => [pagePath c ref]
        | none => [])
    ++ (if !strStarts ref "/" then ["/" ++ ref] else [])
    ++ [strTrimLead ref "/"]

/-- First key in the list whose lookup yields a non-nil page without error. -/
def firstHit (idx : PageIndex) : List String → Option Page
  | [] => none
  | k :: ks =>
    match tryKey idx k with
    | some p => some p
    | none => firstHit idx ks

/-!
## Layout cascade resolver (the `output` package)

`LayoutIdentifier` is a read-only descriptor; `Type` (named `OutType`
here, since `Type` is taken in Lean) carries the output format name and
its media-type suffix.
-/

structure LayoutId where
  pageType : String
  pageSection : String
  pageKind : String
  pageLayout : String
  deriving DecidableEq

structure OutType where
  name : String
  mediaTypeSuffix : String
  deriving DecidableEq

/-- The `layoutsHome` pattern constant. -/
def layoutsHome : String :=
  "index.NAME.SUFFIX index.SUFFIX _default/list.NAME.SUFFIX _default/list.SUFFIX"

/-- The `layoutsSection` pattern constant (a raw multi-line Go string). -/
def layoutsSection : String :=
  "\nsection/SECTION.NAME.SUFFIX section/SECTION.SUFFIX\nSECTION/list.NAME.SUFFIX SECTION/list.SUFFIX\n_default/section.NAME.SUFFIX _default/section.SUFFIX\n_default/list.NAME.SUFFIX _default/list.SUFFIX\nindexes/SECTION.NAME.SUFFIX indexes/SECTION.SUFFIX\n_default/indexes.NAME.SUFFIX _default/indexes.SUFFIX\n"

/-- The `layoutTaxonomy` pattern constant (note the trailing blank after
the second line, exactly as in the source). -/
def layoutTaxonomy : String :=
  "\ntaxonomy/SECTION.NAME.SUFFIX taxonomy/SECTION.SUFFIX\nindexes/SECTION.NAME.SUFFIX indexes/SECTION.SUFFIX \n_default/taxonomy.NAME.SUFFIX _default/taxonomy.SUFFIX\n_default/list.NAME.SUFFIX _default/list.SUFFIX\n"

/-- The `layoutTaxonomyTerm` pattern constant. -/
def layoutTaxonomyTerm : String :=
  "\ntaxonomy/SECTION.terms.NAME.SUFFIX taxonomy/SECTION.terms.SUFFIX\n_default/terms.NAME.SUFFIX _default/terms.SUFFIX\nindexes/indexes.NAME.SUFFIX indexes/indexes.SUFFIX\n"

/-- Model of `replaceKeyValues(templ, "SUFFIX", suffix, "NAME", name,
"SECTION", section)`:  Go's `strings.NewReplacer` performs one
left-to-right pass, replacing the first pattern that matches at each
position and never rescanning replaced text.  The three patterns can
never match at the same position (they differ within their first two
characters), so trying them in order is exactly the replacer's
behavior for this call. -/
def replaceSNSAux (suffix name sect : String) : Nat → List Char → List Char
  | _, [] => []
  | 0, l => l
  | fuel + 1, c :: cs =>
    if "SUFFIX".data.isPrefixOf (c :: cs) then
      suffix.data ++ replaceSNSAux suffix name sect fuel (List.drop 6 (c :: cs))
    else if "NAME".data.isPrefixOf (c :: cs) then
      name.data ++ replaceSNSAux suffix name sect fuel (List.drop 4 (c :: cs))
    else if "SECTION".data.isPrefixOf (c :: cs) then
      sect.data ++ replaceSNSAux suffix name sect fuel (List.drop 7 (c :: cs))
    else c :: replaceSNSAux suffix name sect fuel cs

/-- Single-pass replacement; the fuel `l.length` is an upper bound on the
number of scan steps (every step consumes at least one character), so
the zero-fuel fallback of `replaceSNSAux` is never reached. -/
def replaceSNS (suffix name sect : String) (l : List Char) : List Char :=
  replaceSNSAux suffix name sect l.length l

/-- Go `unicode.IsSpace` restricted to the characters that occur in the
pattern constants (space and newline; tab and carriage return included
for completeness). -/
def isSpaceChar (c : Char) : Bool :=
  c = ' ' ∨ c = '\n' ∨ c = '\t' ∨ c = '\r'

/-- Field splitter over a character list: cut at whitespace. -/
def fieldsAux : List Char → List Char → List String
  | [], acc => [String.mk acc.reverse]
  | c :: cs, acc =>
    if isSpaceChar c then String.mk acc.reverse :: fieldsAux cs []
    else fieldsAux cs (c :: acc)

/-- Model of Go `strings.Fields`: split around runs of whitespace,
keeping only non-empty fields. -/
def goFields (s : String) : List String :=
  (fieldsAux s.data []).filter (fun f => f ≠ "")

/-- Model of `resolveTemplate`: substitute the three placeholders into the
pattern table and split it into fields. -/
def resolveTemplate (templ : String) (id : LayoutId) (tp : OutType) : List String :=
  goFields (String.mk
    (replaceSNS tp.mediaTypeSuffix (goToLower tp.name) id.pageSection templ.data))

/-- Model of `regularPageLayouts`: walk the slash-separated type path from
most specific to least specific, emitting the format-name variant then
the plain variant at each level, then add the two `_default` fallbacks. -/
def regularPageLayouts (types layout0 : String) (tp : OutType) : List String :=
  let layout := if layout0 = "" then "single" else layout0
  let suffix := tp.mediaTypeSuffix
  let name := goToLower tp.name
  let typed :=
    if types ≠ "" then
      let t := goSplitChar '/' types
      (List.range t.length).foldl (fun acc i =>
        let search := t.take (t.length - i)
        acc ++ [goToLower (goPathJoin search) ++ "/" ++ layout ++ "." ++ name ++ "." ++ suffix,
                goToLower (goPathJoin search) ++ "/" ++ layout ++ "." ++ suffix]) []
    else []
  typed ++ ["_default/" ++ layout ++ "." ++ name ++ "." ++ suffix,
            "_default/" ++ layout ++ "." ++ suffix]

/-- Model of `LayoutHandler.For`: kind dispatch, the `layoutOverride`
precedence, and (when a theme is present) the three-band reshuffle
written as the three source loops. -/
def layoutHandlerFor (hasTheme : Bool) (id : LayoutId) (layoutOverride : String)
    (tp : OutType) : List String :=
  let layout := if layoutOverride ≠ "" then layoutOverride else id.pageLayout
  let layouts :=
    if id.pageKind = "home" then resolveTemplate layoutsHome id tp
    else if id.pageKind = "section" then resolveTemplate layoutsSection id tp
    else if id.pageKind = "taxonomy" then resolveTemplate layoutTaxonomy id tp
    else if id.pageKind = "taxonomyTerm" then resolveTemplate layoutTaxonomyTerm id tp
    else if id.pageKind = "page" then regularPageLayouts id.pageType layout tp
    else []
  if hasTheme then
    let l1 := layouts.foldl
      (fun acc t => if strStarts t "_internal/" then acc else acc ++ [t]) []
    let l2 := layouts.foldl
      (fun acc t => if strStarts t "_internal/" then acc else acc ++ ["theme/" ++ t]) l1
    let l3 := layouts.foldl
      (fun acc t => if strStarts t "_internal/" then acc ++ [t] else acc) l2
    l3
  else layouts

/-!
## Template identifier normalization (the `tpl` package)

The variable alias table `decl` (`map[string]string`) is modeled as an
association list with map-update semantics.  The `text/template/parse`
node kinds the pass dispatches on are modeled as the inductive `TNode`;
command arguments that are field or variable identifier paths are the
`TArg` cases (other argument kinds are ignored by the pass, exactly as
the Go type switch ignores them).  A node referencing a named
sub-template recurses into another template's tree via a registry
lookup; that cross-template step is outside the modeled fragment.
-/

def declT : Type := List (String × String)

/-- Go map read `d[k]`. -/
def declGet (d : declT) (k : String) : Option String :=
  match d with
  | [] => none
  | (k0, v0) :: rest => if k0 = k then some v0 else declGet rest k

/-- Go map write `d[k] = v` (replace or append). -/
def declSet (d : declT) (k v : String) : declT :=
  match d with
  | [] => [(k, v)]
  | (k0, v0) :: rest => if k0 = k then (k, v) :: rest else (k0, v0) :: declSet rest k v

/-- Result of the worklist loop inside `indexOfReplacementStart`:  Go's
loop appends further `$var` expansions to the slice it iterates over,
so on a cyclic alias table it never terminates; `outOfFuel` marks
executions that would still be looping after the given fuel. -/
inductive ResolveOut where
  | outOfFuel
  | abort
  | resolved (replaced : List String)
  deriving DecidableEq

/-- Go's first-character test `s[0] == c` (callers check non-emptiness,
where the empty case below is unreachable). -/
def headCharIs (c : Char) (s : String) : Bool :=
  match s.data with
  | [] => false
  | c0 :: _ => c0 = c

/-- The alias-resolution worklist loop of `indexOfReplacementStart`:
process the queue of path segments; a plain segment is appended (split
on dots) to `replaced`; a `$var` is looked up in the alias table —
unknown vars abort the whole rewrite, an alias whose expansion is
itself a `$`-path is pushed back onto the queue. -/
def resolveLoop (d : declT) : Nat → List String → List String → ResolveOut
  | _, [], replaced => ResolveOut.resolved replaced
  | 0, _ :: _, _ => ResolveOut.outOfFuel
  | fuel + 1, pv :: rest, replaced =>
    if pv = "$" then resolveLoop d fuel rest replaced
    else if pv = "" ∨ !headCharIs '$' pv then
      resolveLoop d fuel rest (replaced ++ goSplitChar '.' pv)
    else
      match declGet d pv with
      | none => ResolveOut.abort
      | some repl0 =>
        let repl := strTrimLead repl0 "."
        if repl = "" then resolveLoop d fuel rest replaced
        else if headCharIs '$' repl then
          resolveLoop d fuel (rest ++ goSplitChar '.' repl) replaced
        else resolveLoop d fuel rest (replaced ++ goSplitChar '.' repl)

/-- Model of `sliceStartsWith(slice, words...)`. -/
def sliceStartsWith : List String → List String → Bool
  | _, [] => true
  | [], _ :: _ => false
  | s :: ss, w :: ws => s = w && sliceStartsWith ss ws

/-- The scan loop of `indexOfFirstRealIdentAfterWords`: the first index
whose segment is non-empty, not `$`-prefixed and not one of the prefix
words. -/
def findRealIdentIdx (words : List String) : List String → Nat → Option Nat
  | [], _ => none
  | id0 :: rest, i =>
    if id0 = "" ∨ headCharIs '$' id0 then findRealIdentIdx words rest (i + 1)
    else if words.contains id0 then findRealIdentIdx words rest (i + 1)
    else some i

/-- Model of `indexOfFirstRealIdentAfterWords`. -/
def indexOfFirstRealIdentAfterWords (resolvedIdents idents words : List String) :
    Option Nat :=
  if sliceStartsWith resolvedIdents words then findRealIdentIdx words idents 0
  else none

/-- The canonical parameter-root prefixes `paramsPaths`, in source order. -/
def paramsPaths : List (List String) :=
  [["Params"],
   ["Site", "Params"],
   ["Page", "Site", "Params"],
   ["Page", "Params"],
   ["Site", "Language", "Params"]]

/-- The `for _, paramPath := range paramsPaths` loop: first path that
yields a replacement index wins. -/
def firstIndexOverPaths (resolvedIdents idents : List String) :
    List (List String) → Option Nat
  | [] => none
  | ws :: rest =>
    match indexOfFirstRealIdentAfterWords resolvedIdents idents ws with
    | some i => some i
    | none => firstIndexOverPaths resolvedIdents idents rest

/-- Model of `decl.indexOfReplacementStart` (`none` models Go's `-1`;
`fuel` bounds the alias-expansion worklist, which in Go can grow while
it is being iterated). -/
def indexOfReplacementStart (fuel : Nat) (d : declT) (idents : List String) :
    Option Nat :=
  match idents with
  | [] => none
  | id0 :: restIdents =>
    match resolveLoop d fuel (goSplitChar '.' id0) [] with
    | ResolveOut.outOfFuel => none
    | ResolveOut.abort => none
    | ResolveOut.resolved replaced =>
      firstIndexOverPaths (replaced ++ restIdents) (id0 :: restIdents) paramsPaths

/-- The alias-resolved identifier path (`resolvedIdents` in the source):
the expansion of the head segment followed by the remaining segments. -/
def resolvedIdentsOf (fuel : Nat) (d : declT) (idents : List String) :
    Option (List String) :=
  match idents with
  | [] => none
  | id0 :: restIdents =>
    match resolveLoop d fuel (goSplitChar '.' id0) [] with
    | ResolveOut.resolved replaced => some (replaced ++ restIdents)
    | _ => none

/-- Model of `templateContext.updateIdentsIfNeeded`: lower-case every
segment from the replacement start onward, in place. -/
def updateIdentsIfNeeded (fuel : Nat) (d : declT) (idents : List String) :
    List String :=
  match indexOfReplacementStart fuel d idents with
  | none => idents
  | some i => idents.take i ++ (idents.drop i).map goToLower

/-- A command argument the pass inspects: a field path (`.A.B`), a
variable path (`$v.A`), or any other argument kind, carried by its
textual rendering (used only by `CommandNode.String`). -/
inductive TArg where
  | fieldArg (idents : List String)
  | varArg (idents : List String)
  | otherArg (text : String)
  deriving DecidableEq

/-- The `text/template/parse` node kinds the normalization pass
dispatches on.  A nil `ListNode` or branch list is modeled as
`listN []` (visiting it records nothing and rewrites nothing, like
Go's nil check). -/
inductive TNode where
  | listN (nodes : List TNode)
  | actionN (pipe : TNode)
  | ifN (pipe : TNode) (list : TNode) (elseList : TNode)
  | withN (pipe : TNode) (list : TNode) (elseList : TNode)
  | rangeN (pipe : TNode) (list : TNode) (elseList : TNode)
  | pipeN (decls : List (List String)) (cmds : List TNode)
  | commandN (args : List TArg)

/-- `FieldNode.String` / `VariableNode.String` / opaque argument text. -/
def argString : TArg → String
  | TArg.fieldArg ids => goJoin "" (ids.map (fun i => "." ++ i))
  | TArg.varArg ids => goJoin "." ids
  | TArg.otherArg t => t

/-- `CommandNode.String`: the arguments joined by single spaces. -/
def commandStr : TNode → String
  | TNode.commandN args => goJoin " " (args.map argString)
  | _ => ""

/-- The decl-recording loop of the `PipeNode` case:
`for i, elem := range x.Decl { if len(x.Cmds) > i { c.decl[elem.Ident[0]] = x.Cmds[i].String() } }`. -/
def recordDeclsAux (cmds : List TNode) (d : declT) (i : Nat) :
    List (List String) → declT
  | [] => d
  | ids :: rest =>
    recordDeclsAux cmds
      (if i < cmds.length then
        declSet d (ids.headD "") (commandStr (cmds.getD i (TNode.commandN [])))
       else d)
      (i + 1) rest

def recordDecls (d : declT) (decls : List (List String)) (cmds : List TNode) : declT :=
  recordDeclsAux cmds d 0 decls

/-- Rewrite of a command argument (the `FieldNode` / `VariableNode`
cases of the `CommandNode` dispatch). -/
def rewriteArg (fuel : Nat) (d : declT) : TArg → TArg
  | TArg.fieldArg ids => TArg.fieldArg (updateIdentsIfNeeded fuel d ids)
  | TArg.varArg ids => TArg.varArg (updateIdentsIfNeeded fuel d ids)
  | TArg.otherArg t => TArg.otherArg t

mutual

/-- Model of `templateContext.paramsKeysToLower`: one depth-first walk;
the alias table is threaded through the whole walk (Go keeps a single
shared map), pipe declarations are recorded before the pipe's commands
are visited, and command arguments are rewritten with the table as of
the visit. -/
def walkNode (fuel : Nat) (d : declT) : TNode → declT × TNode
  | TNode.listN ns =>
    let r := walkList fuel d ns
    (r.1, TNode.listN r.2)
  | TNode.actionN p =>
    let r := walkNode fuel d p
    (r.1, TNode.actionN r.2)
  | TNode.ifN p l e =>
    let r1 := walkNode fuel d p
    let r2 := walkNode fuel r1.1 l
    let r3 := walkNode fuel r2.1 e
    (r3.1, TNode.ifN r1.2 r2.2 r3.2)
  | TNode.withN p l e =>
    let r1 := walkNode fuel d p
    let r2 := walkNode fuel r1.1 l
    let r3 := walkNode fuel r2.1 e
    (r3.1, TNode.withN r1.2 r2.2 r3.2)
  | TNode.rangeN p l e =>
    let r1 := walkNode fuel d p
    let r2 := walkNode fuel r1.1 l
    let r3 := walkNode fuel r2.1 e
    (r3.1, TNode.rangeN r1.2 r2.2 r3.2)
  | TNode.pipeN decls cmds =>
    let d1 := recordDecls d decls cmds
    let r := walkList fuel d1 cmds
    (r.1, TNode.pipeN decls r.2)
  | TNode.commandN args => (d, TNode.commandN (args.map (rewriteArg fuel d)))

def walkList (fuel : Nat) (d : declT) : List TNode → declT × List TNode
  | [] => (d, [])
  | n :: ns =>
    let r1 := walkNode fuel d n
    let r2 := walkList fuel r1.1 ns
    (r2.1, r1.2 :: r2.2)

end

/-- Model of `applyTemplateTransformers`: run the pass over the root
with a fresh, empty alias table and return the rewritten tree. -/
def applyTemplateTransformers (fuel : Nat) (root : TNode) : TNode :=
  (walkNode fuel [] root).2

/-- The parse tree of the template source
`\x7b\x7b $p := .Params \x7d\x7d\x7b\x7b $p.MyKey \x7d\x7d`: an action
declaring `$p` as `.Params`, followed by an action using `$p.MyKey`. -/
def exampleTemplateTree : TNode :=
  TNode.listN
    [TNode.actionN (TNode.pipeN [["$p"]]
        [TNode.commandN [TArg.fieldArg ["Params"]]]),
     TNode.actionN (TNode.pipeN []
        [TNode.commandN [TArg.varArg ["$p", "MyKey"]]])]

/-!
## Build orchestrator (`Site` in the early hugolib site code)

The orchestrator's own control flow (`Build` → `Process` → `Render`,
the phase order, and `BuildSiteMeta`'s no-content failure) is embedded
from the source.  External collaborators — file walking, front-matter
parsing (`NewPage`), page sorting (`Pages.Sort`, defined outside the
analyzed files) and template execution — are supplied through a
`BuildEnv`.  Each phase that runs is recorded in a trace so that
"halts before any rendering phase" is a statement about the trace.
-/

structure SitePage where
  draft : Bool
  date : Nat
  pageSection : String
  params : List (String × List String)
  deriving DecidableEq

def defaultSitePage : SitePage := ⟨false, 0, "", []⟩

/-- Modelled from the spec: `p.GetParam(plural)` returns the page's
declared terms for a taxonomy axis, or nil (front-matter access is
defined outside the analyzed files). -/
def getParam (p : SitePage) (k : String) : Option (List String) :=
  match p.params.find? (fun kv => kv.1 = k) with
  | some kv => some kv.2
  | none => none

structure BuildConfig where
  contentDir : String
  buildDrafts : Bool
  indexes : List (String × String)
  deriving DecidableEq

structure BuildEnv where
  config : BuildConfig
  files : List String
  newPage : String → SitePage
  sortPages : List SitePage → List SitePage
  renderPagesErr : Option String

/-- The build phases, in orchestration order. -/
inductive Phase where
  | initStep
  | prepTemplates
  | createPages
  | setupPrevNext
  | buildSiteMeta
  | processShortcodes
  | absUrlify
  | renderIndexes
  | renderIndexesIndexes
  | renderLists
  | renderPages
  | renderHomePage
  | writePages
  deriving DecidableEq

/-- The rendering-side phases: every one of them executes templates
(shortcode handling and each Render step call into the template
engine). -/
def renderingPhases : List Phase :=
  [Phase.processShortcodes, Phase.absUrlify, Phase.renderIndexes,
   Phase.renderIndexesIndexes, Phase.renderLists, Phase.renderPages,
   Phase.renderHomePage]

/-- Model of `Site.CreatePages`: one page per discovered file, kept when
it is not a draft or drafts are enabled, then sorted. -/
def createPages (env : BuildEnv) : List SitePage :=
  env.sortPages
    ((env.files.map env.newPage).filter (fun p => env.config.buildDrafts || !p.draft))

/-- Modelled from the spec: `Index.Add` groups a page under a term key
(the index container is defined outside the analyzed files; the spec
describes it as grouping pages by declared terms). -/
def indexAdd (idx : List (String × List SitePage)) (key : String) (p : SitePage) :
    List (String × List SitePage) :=
  match idx with
  | [] => [(key, [p])]
  | (k, ps) :: rest =>
    if k = key then (k, ps ++ [p]) :: rest else (k, ps) :: indexAdd rest key p

structure SiteMeta where
  indexes : List (String × List (String × List SitePage))
  sections : List (String × List SitePage)
  lastChange : Nat
  deriving DecidableEq

/-- Model of `Site.BuildSiteMeta`: aggregate the taxonomy indexes and the
section groupings, then fail with the no-content error when the page
set is empty (`errors.New(fmt.Sprintf("Unable to build site metadata,
no pages found in directory %s", s.c.ContentDir))`); the group sorting
uses the externally supplied page sort. -/
def buildSiteMeta (env : BuildEnv) (pages : List SitePage) :
    Except String SiteMeta :=
  let idxs := env.config.indexes.map (fun sp =>
    (sp.2,
     (pages.foldl (fun acc p =>
        match getParam p sp.2 with
        | some vals => vals.foldl (fun a v => indexAdd a v p) acc
        | none => acc) []).map (fun kv => (kv.1, env.sortPages kv.2))))
  let sects := (pages.foldl (fun acc p => indexAdd acc p.pageSection p) []).map
    (fun kv => (kv.1, env.sortPages kv.2))
  if pages.length = 0 then
    Except.error ("Unable to build site metadata, no pages found in directory " ++
      env.config.contentDir)
  else
    Except.ok { indexes := idxs, sections := sects,
                lastChange := (pages.headD defaultSitePage).date }

structure SiteProcessed where
  pages : List SitePage
  meta : SiteMeta

/-- Model of `Site.Process`: initialize, template preparation (parsing
only — no template is executed), page materialization, prev/next
linking, then metadata building, whose error aborts the phase chain. -/
def siteProcess (env : BuildEnv) : Except String SiteProcessed × List Phase :=
  let t := [Phase.initStep, Phase.prepTemplates, Phase.createPages,
            Phase.setupPrevNext]
  let pages := createPages env
  match buildSiteMeta env pages with
  | Except.error e => (Except.error e, t ++ [Phase.buildSiteMeta])
  | Except.ok m => (Except.ok ⟨pages, m⟩, t ++ [Phase.buildSiteMeta])

/-- The `n.Data["Pages"]` binding assembled by `Site.RenderHomePage`:
all pages when fewer than nine exist, otherwise the first nine of the
sorted sequence. -/
def homePagesData (pages : List SitePage) : List SitePage :=
  if pages.length < 9 then pages else pages.take 9

/-- The node handed to the `index.html` template by `Site.RenderHomePage`
(title, first-page date and the "Pages" data; the URL/permalink fields
are external URL formatting). -/
structure HomeNode where
  pagesData : List SitePage
  date : Nat
  deriving DecidableEq

def renderHomePageNode (pages : List SitePage) : HomeNode :=
  { pagesData := homePagesData pages,
    date := (pages.headD defaultSitePage).date }

/-- Model of `Site.Render`: the rendering phases in source order.  Only
`RenderPages` propagates an execution error (the other steps discard
theirs); template execution itself is external, so its outcome is the
environment's `renderPagesErr`. -/
def siteRender (env : BuildEnv) (s : SiteProcessed) :
    Except String HomeNode × List Phase :=
  let t := [Phase.processShortcodes, Phase.absUrlify, Phase.renderIndexes,
            Phase.renderIndexesIndexes, Phase.renderLists]
  match env.renderPagesErr with
  | some e => (Except.error e, t ++ [Phase.renderPages])
  | none =>
    (Except.ok (renderHomePageNode s.pages),
     t ++ [Phase.renderPages, Phase.renderHomePage])

/-- Model of `Site.Build`: `Process` then `Render` then `Write`; the
first error is returned and the remaining phases never run. -/
def siteBuild (env : BuildEnv) : Option String × List Phase :=
  match siteProcess env with
  | (Except.error e, t) => (some e, t)
  | (Except.ok s, t) =>
    match siteRender env s with
    | (Except.error e, t2) => (some e, t ++ t2)
    | (Except.ok _, t2) => (none, t ++ t2 ++ [Phase.writePages])

/-!
## Theorems
-/

/-- Insertion at a free key binds the page. -/
theorem addToIndex_apply_none (idx : PageIndex) (ref : String) (p : Page)
    (h : idx ref = none) :
    addToIndex idx ref p ref = some (IndexEntry.page p) := by
  unfold addToIndex
  rw [h]
  simp

/-- Insertion over a different existing page flips the key to the sentinel. -/
theorem addToIndex_apply_conflict (idx : PageIndex) (ref : String) (p : Page)
    (e : IndexEntry) (h : idx ref = some e)
    (hc : e ≠ IndexEntry.ambiguity ∧ e ≠ IndexEntry.page p) :
    addToIndex idx ref p ref = some IndexEntry.ambiguity := by
  unfold addToIndex
  rw [h]
  simp [hc]

/-- Insertion over the sentinel or over the same page leaves the key as is. -/
theorem addToIndex_apply_keep (idx : PageIndex) (ref : String) (p : Page)
    (e : IndexEntry) (h : idx ref = some e)
    (hc : ¬(e ≠ IndexEntry.ambiguity ∧ e ≠ IndexEntry.page p)) :
    addToIndex idx ref p ref = some e := by
  unfold addToIndex
  rw [h]
  simp [hc, h]

/-- Insertion under one key leaves every other key's binding untouched. -/
theorem addToIndex_apply_other (idx : PageIndex) (ref : String) (p : Page)
    (r : String) (hr : r ≠ ref) :
    addToIndex idx ref p r = idx r := by
  unfold addToIndex
  cases hidx : idx ref with
  | none => simp [hr]
  | some e =>
    by_cases hc : e ≠ IndexEntry.ambiguity ∧ e ≠ IndexEntry.page p
    · simp [hc, hr]
    · simp [hc]

/-- One insertion never clears the ambiguity sentinel at any key. -/
theorem addToIndex_ambiguity_stable (idx : PageIndex) (k r : String) (p : Page)
    (h : idx k = some IndexEntry.ambiguity) :
    addToIndex idx r p k = some IndexEntry.ambiguity := by
  by_cases hrk : k = r
  · subst hrk
    rw [addToIndex_apply_keep idx k p IndexEntry.ambiguity h (by simp)]
  · rw [addToIndex_apply_other idx r p k hrk]
    exact h

/-- A whole sequence of insertions never clears the ambiguity sentinel. -/
theorem addAll_ambiguity_stable (inserts : List (String × Page)) (idx : PageIndex)
    (k : String) (h : idx k = some IndexEntry.ambiguity) :
    addAll idx inserts k = some IndexEntry.ambiguity := by
  induction inserts generalizing idx with
  | nil => simpa [addAll] using h
  | cons kp rest ih =>
    simp only [addAll, List.foldl_cons]
    exact ih _ (addToIndex_ambiguity_stable idx k kp.1 kp.2 h)

/-- C2: once a key is bound to the ambiguity sentinel, every later insertion
(under any key) leaves that binding equal to the sentinel, and inserting a
second, distinct page under a key already bound to a different page
replaces the binding with the sentinel. -/
theorem c2_ambiguity_monotone :
    (∀ (idx : PageIndex) (k : String) (inserts : List (String × Page)),
        idx k = some IndexEntry.ambiguity →
        addAll idx inserts k = some IndexEntry.ambiguity)
    ∧ (∀ (idx : PageIndex) (k : String) (p q : Page),
        idx k = some (IndexEntry.page p) → q ≠ p →
        addToIndex idx k q k = some IndexEntry.ambiguity) := by
  constructor
  · intro idx k inserts h
    exact addAll_ambiguity_stable inserts idx k h
  · intro idx k p q h hne
    refine addToIndex_apply_conflict idx k q (IndexEntry.page p) h ⟨by simp, ?_⟩
    intro hh
    injection hh with h12
    exact hne h12.symm

/-- C2 witness: a concrete ambiguous binding survives a later insertion of a
real page under the same key, and a conflicting second page flips a
one-page binding to the sentinel. -/
theorem c2_witness :
    addAll (fun r => if r = "k" then some IndexEntry.ambiguity else none)
        [("k", ⟨"page", [], "/a/b.md", "en", "b"⟩)] "k" = some IndexEntry.ambiguity
    ∧ addToIndex
        (fun r => if r = "k" then
          some (IndexEntry.page ⟨"page", [], "/a/b.md", "en", "b"⟩) else none)
        "k" ⟨"page", [], "/a/c.md", "en", "c"⟩ "k" = some IndexEntry.ambiguity :=
  ⟨c2_ambiguity_monotone.1 _ "k" _ (by decide),
   c2_ambiguity_monotone.2 _ "k" ⟨"page", [], "/a/b.md", "en", "b"⟩
     ⟨"page", [], "/a/c.md", "en", "c"⟩ (by decide) (by decide)⟩

/-- C8: inserting the same (key, page) pair a second time leaves the index's
resolution for that key unchanged. -/
theorem c8_insert_idempotent (idx : PageIndex) (k : String) (p : Page) :
    addToIndex (addToIndex idx k p) k p k = addToIndex idx k p k := by
  cases h : idx k with
  | none =>
    have h1 : addToIndex idx k p k = some (IndexEntry.page p) :=
      addToIndex_apply_none idx k p h
    rw [addToIndex_apply_keep (addToIndex idx k p) k p (IndexEntry.page p) h1 (by simp), h1]
  | some e =>
    by_cases he : e ≠ IndexEntry.ambiguity ∧ e ≠ IndexEntry.page p
    · have h1 : addToIndex idx k p k = some IndexEntry.ambiguity :=
        addToIndex_apply_conflict idx k p e h he
      rw [addToIndex_apply_keep (addToIndex idx k p) k p IndexEntry.ambiguity h1 (by simp), h1]
    · have h1 : addToIndex idx k p k = some e :=
        addToIndex_apply_keep idx k p e h he
      rw [addToIndex_apply_keep (addToIndex idx k p) k p e h1 he, h1]

/-- Appending with a filter test that keeps the element when the test is
false (the first two theme-banding loops). -/
theorem foldl_keep_not (P : String → Bool) (f : String → String) :
    ∀ (l acc : List String),
      l.foldl (fun a t => if P t then a else a ++ [f t]) acc
        = acc ++ (l.filter (fun t => !P t)).map f := by
  intro l
  induction l with
  | nil => intro acc; simp
  | cons x xs ih =>
    intro acc
    by_cases hx : P x <;> simp [hx, ih, List.filter_cons]

/-- Appending with a filter test that keeps the element when the test is
true (the third theme-banding loop). -/
theorem foldl_keep (P : String → Bool) :
    ∀ (l acc : List String),
      l.foldl (fun a t => if P t then a ++ [t] else a) acc = acc ++ l.filter P := by
  intro l
  induction l with
  | nil => intro acc; simp
  | cons x xs ih =>
    intro acc
    by_cases hx : P x <;> simp [hx, ih, List.filter_cons]

/-- The three theme-banding loops produce exactly the three contiguous
bands of the original candidate list. -/
theorem themeBands (L : List String) :
    L.foldl (fun acc t => if strStarts t "_internal/" then acc ++ [t] else acc)
      (L.foldl (fun acc t => if strStarts t "_internal/" then acc
          else acc ++ ["theme/" ++ t])
        (L.foldl (fun acc t => if strStarts t "_internal/" then acc else acc ++ [t]) []))
    = L.filter (fun t => !strStarts t "_internal/")
      ++ (L.filter (fun t => !strStarts t "_internal/")).map (fun t => "theme/" ++ t)
      ++ L.filter (fun t => strStarts t "_internal/") := by
  rw [foldl_keep, foldl_keep_not (fun t => strStarts t "_internal/") (fun t => "theme/" ++ t),
    foldl_keep_not (fun t => strStarts t "_internal/") (fun t => t)]
  simp [List.append_assoc]

/-- C4: with a theme present, `LayoutHandler.For` returns the no-theme
candidate list reshuffled into three contiguous bands — the non-internal
candidates in original order, the same non-internal candidates prefixed
"theme/" in the same order, then the internal candidates in original
order, never theme-prefixed. -/
theorem c4_theme_banding (id : LayoutId) (layoutOverride : String) (tp : OutType) :
    layoutHandlerFor true id layoutOverride tp =
      (layoutHandlerFor false id layoutOverride tp).filter
          (fun t => !strStarts t "_internal/")
        ++ ((layoutHandlerFor false id layoutOverride tp).filter
            (fun t => !strStarts t "_internal/")).map (fun t => "theme/" ++ t)
        ++ (layoutHandlerFor false id layoutOverride tp).filter
            (fun t => strStarts t "_internal/") := by
  simp only [layoutHandlerFor, if_true, if_false]
  exact themeBands _

/-- C9: a layout identifier whose kind is none of the five dispatched kinds
yields an empty candidate list, theme or no theme. -/
theorem c9_unknown_kind_empty (hasTheme : Bool) (id : LayoutId) (ov : String)
    (tp : OutType)
    (h : id.pageKind ∉ ["home", "section", "taxonomy", "taxonomyTerm", "page"]) :
    layoutHandlerFor hasTheme id ov tp = [] := by
  simp only [List.mem_cons, List.mem_singleton, not_or] at h
  obtain ⟨h1, h2, h3, h4, h5⟩ := h
  cases hasTheme <;>
    simp [layoutHandlerFor, h1, h2, h3, h4, h5]

/-- C9 witness at the concrete kind "unknownKind" with a theme present. -/
theorem c9_witness :
    layoutHandlerFor true ⟨"", "", "unknownKind", ""⟩ "" ⟨"html", "html"⟩ = [] :=
  c9_unknown_kind_empty true ⟨"", "", "unknownKind", ""⟩ "" ⟨"html", "html"⟩ (by decide)

/-- Repeated two-element appends in a left fold amount to a flat map. -/
theorem foldl_append_pair {α : Type} (g h : α → String) :
    ∀ (l : List α) (acc : List String),
      l.foldl (fun a i => a ++ [g i, h i]) acc
        = acc ++ l.flatMap (fun i => [g i, h i]) := by
  intro l
  induction l with
  | nil => intro acc; simp
  | cons x xs ih => intro acc; simp [ih]

/-- C5: the "page" cascade for content type path "post/sub", layout
"single" and HTML output is exactly the six expected candidates; in
general the cascade walks the slash-separated type path from most
specific to least specific, emitting the format-name variant then the
plain variant at each level, then appends the two `_default`
fallbacks. -/
theorem c5_page_cascade :
    (regularPageLayouts "post/sub" "single" ⟨"html", "html"⟩ =
      ["post/sub/single.html.html", "post/sub/single.html",
       "post/single.html.html", "post/single.html",
       "_default/single.html.html", "_default/single.html"])
    ∧ ∀ (types layout0 : String) (tp : OutType),
        regularPageLayouts types layout0 tp =
          (if types = "" then []
           else
             (List.range (goSplitChar '/' types).length).flatMap (fun i =>
               [goToLower (goPathJoin ((goSplitChar '/' types).take
                    ((goSplitChar '/' types).length - i))) ++ "/" ++
                  (if layout0 = "" then "single" else layout0) ++ "." ++
                  goToLower tp.name ++ "." ++ tp.mediaTypeSuffix,
                goToLower (goPathJoin ((goSplitChar '/' types).take
                    ((goSplitChar '/' types).length - i))) ++ "/" ++
                  (if layout0 = "" then "single" else layout0) ++ "." ++
                  tp.mediaTypeSuffix]))
          ++ ["_default/" ++ (if layout0 = "" then "single" else layout0) ++ "." ++
                goToLower tp.name ++ "." ++ tp.mediaTypeSuffix,
              "_default/" ++ (if layout0 = "" then "single" else layout0) ++ "." ++
                tp.mediaTypeSuffix] := by
  constructor
  · decide
  · intro types layout0 tp
    by_cases h : types = ""
    · simp [regularPageLayouts, h]
    · simp only [regularPageLayouts, h, if_neg, if_false, ne_eq,
        not_false_eq_true, if_true, ite_true, ite_false]
      rw [foldl_append_pair]
      simp

/-- First-hit over an appended candidate list. -/
theorem firstHit_append (idx : PageIndex) (l1 l2 : List String) :
    firstHit idx (l1 ++ l2) =
      match firstHit idx l1 with
      | some p => some p
      | none => firstHit idx l2 := by
  induction l1 with
  | nil => simp [firstHit]
  | cons k ks ih =>
    simp only [List.cons_append, firstHit]
    cases tryKey idx k <;> simp [ih]

theorem firstHit_nil (idx : PageIndex) : firstHit idx [] = none := rfl

theorem firstHit_single (idx : PageIndex) (k : String) :
    firstHit idx [k] = tryKey idx k := by
  simp only [firstHit]
  cases tryKey idx k <;> rfl

/-- A candidate list none of whose keys hits yields no first hit. -/
theorem firstHit_none (idx : PageIndex) :
    ∀ (l : List String), (∀ k ∈ l, tryKey idx k = none) → firstHit idx l = none := by
  intro l
  induction l with
  | nil => intro _; rfl
  | cons k ks ih =>
    intro h
    simp only [firstHit, h k (by simp)]
    exact ih (fun k' hk' => h k' (by simp [hk']))

/-- When the final stripped-key lookup hits, the fallback returns the page. -/
theorem getPageNewStep4_hit (idx : PageIndex) (ref : String) (p : Page)
    (h : tryKey idx (strTrimLead ref "/") = some p) :
    getPageNewStep4 idx ref = (some p, none) := by
  unfold tryKey at h
  unfold getPageNewStep4
  cases hg : getFromCache idx (strTrimLead ref "/") with
  | mk a b =>
    rw [hg] at h
    cases a <;> cases b <;> simp_all

/-- The source's nested early-return structure agrees with trying the four
candidate keys in order: the first non-nil, non-error hit is returned,
and only when all four miss does the final fallback's own outcome
(nil page or ambiguity error) surface. -/
theorem getPageNew_eq (idx : PageIndex) (context : Option Page) (ref : String) :
    getPageNew idx context ref =
      match firstHit idx (candidateKeys context ref) with
      | some q => (some q, none)
      | none => getPageNewStep4 idx ref := by
  unfold getPageNew candidateKeys
  rw [firstHit_append, firstHit_append, firstHit_append]
  rcases context with _ | c <;> by_cases h1 : strStarts ref "/" <;>
    simp only [h1, ite_true, ite_false, Bool.not_true, Bool.not_false,
      firstHit_nil, firstHit_single, Option.bind]
  · cases ht1 : tryKey idx ref with
    | some q => rfl
    | none =>
      cases ht4 : tryKey idx (strTrimLead ref "/") with
      | some q => exact getPageNewStep4_hit idx ref q ht4
      | none => rfl
  · cases ht3 : tryKey idx ("/" ++ ref) with
    | some q => rfl
    | none =>
      cases ht4 : tryKey idx (strTrimLead ref "/") with
      | some q => exact getPageNewStep4_hit idx ref q ht4
      | none => rfl
  · cases ht1 : tryKey idx ref with
    | some q => rfl
    | none =>
      cases ht2 : tryKey idx (pagePath c ref) with
      | some q => rfl
      | none =>
        cases ht4 : tryKey idx (strTrimLead ref "/") with
        | some q => exact getPageNewStep4_hit idx ref q ht4
        | none => rfl
  · cases ht2 : tryKey idx (pagePath c ref) with
    | some q => rfl
    | none =>
      cases ht3 : tryKey idx ("/" ++ ref) with
      | some q => rfl
      | none =>
        cases ht4 : tryKey idx (strTrimLead ref "/") with
        | some q => exact getPageNewStep4_hit idx ref q ht4
        | none => rfl

/-- C3: `getPageNew` tries exactly the four candidate keys in order — the
reference verbatim when it starts with "/", the context's section path
joined with the reference when a context page is supplied, the
reference with "/" prepended when it did not start with "/", and the
reference with a leading "/" stripped — and returns the page of the
first lookup that yields a non-nil page without error. -/
theorem c3_resolution_order (idx : PageIndex) (context : Option Page) (ref : String)
    (p : Page) (h : firstHit idx (candidateKeys context ref) = some p) :
    getPageNew idx context ref = (some p, none) := by
  rw [getPageNew_eq, h]

/-- C3 witness: a context page under /blog/foo resolving "bar.md" through
the page-relative key /blog/foo/bar.md. -/
theorem c3_witness :
    getPageNew
      (fun r => if r = "/blog/foo/bar.md"
        then some (IndexEntry.page ⟨"page", ["blog", "foo"], "/blog/foo/bar.md", "en", "bar"⟩)
        else none)
      (some ⟨"section", ["blog", "foo"], "/blog/foo/_index.md", "en", "blog"⟩)
      "bar.md"
    = (some ⟨"page", ["blog", "foo"], "/blog/foo/bar.md", "en", "bar"⟩, none) :=
  c3_resolution_order _ _ _ _ (by decide)

/-- C1 counterexample: with an index that binds no key at all, resolving
"foo" relative to a context page matches nothing under all four lookup
strategies, yet `getPageNew` returns a nil page with a nil error — no
not-found error is produced, and no error message naming the context
page's canonical path exists. -/
theorem c1_counterexample :
    getPageNew (fun _ => none)
      (some ⟨"page", ["blog"], "/blog/ctx.md", "en", "ctx"⟩) "foo" = (none, none) := by
  decide

/-- C1 (amended): a reference that matches no index key yields a nil page
and a nil error — not-found is signalled by the nil page, not by an
error; and the only error `getPageNew` ever returns is the plain
"failed to resolve page:" wrap of the final lookup's ambiguity error,
never the variant naming the resolving context page (the `context`
variable is overwritten by the final lookup's nil result). -/
theorem c1_amended (idx : PageIndex) (context : Option Page) (ref : String) :
    ((∀ k ∈ candidateKeys context ref, idx k = none) →
      getPageNew idx context ref = (none, none))
    ∧ ∀ e, (getPageNew idx context ref).2 = some e →
        e = "failed to resolve page: " ++
          ("page reference \"" ++ strTrimLead ref "/" ++ "\" is ambiguous") := by
  constructor
  · intro h
    have hall : ∀ k ∈ candidateKeys context ref, tryKey idx k = none := by
      intro k hk
      unfold tryKey getFromCache
      rw [h k hk]
    rw [getPageNew_eq, firstHit_none idx _ hall]
    show getPageNewStep4 idx ref = (none, none)
    have h4 : idx (strTrimLead ref "/") = none := by
      refine h _ ?_
      unfold candidateKeys
      simp
    simp only [getPageNewStep4, getFromCache, h4]
  · intro e he
    rw [getPageNew_eq] at he
    cases hfh : firstHit idx (candidateKeys context ref) with
    | some q => rw [hfh] at he; simp at he
    | none =>
      rw [hfh] at he
      simp only [getPageNewStep4, getFromCache] at he
      cases hidx : idx (strTrimLead ref "/") with
      | none => rw [hidx] at he; simp at he
      | some entry =>
        cases entry with
        | page q => rw [hidx] at he; simp at he
        | ambiguity =>
          rw [hidx] at he
          simp at he
          rw [← he]

/-- C1 amended-claim witness: the empty index with a concrete context page
and reference "x". -/
theorem c1_amended_witness :
    getPageNew (fun _ => none)
      (some ⟨"page", ["blog"], "/blog/ctx.md", "en", "ctx"⟩) "x" = (none, none) :=
  (c1_amended (fun _ => none)
    (some ⟨"page", ["blog"], "/blog/ctx.md", "en", "ctx"⟩) "x").1 (fun _ _ => rfl)

/-- Characterization of the real-identifier scan: a returned index is the
offset plus the position of the first segment that is non-empty, not
'$'-prefixed and not one of the prefix words; all earlier segments fail
that test. -/
theorem findRealIdentIdx_spec (ws : List String) :
    ∀ (l : List String) (k i : Nat), findRealIdentIdx ws l k = some i →
      ∃ j, i = k + j ∧ j < l.length
        ∧ (l.getD j "" ≠ "" ∧ headCharIs '$' (l.getD j "") = false ∧ l.getD j "" ∉ ws)
        ∧ ∀ m, m < j → (l.getD m "" = "" ∨ headCharIs '$' (l.getD m "") = true
            ∨ l.getD m "" ∈ ws) := by
  intro l
  induction l with
  | nil => intro k i h; simp [findRealIdentIdx] at h
  | cons x xs ih =>
    intro k i h
    unfold findRealIdentIdx at h
    by_cases hx : x = "" ∨ headCharIs '$' x
    · rw [if_pos hx] at h
      obtain ⟨j, hj1, hj2, hj3, hj4⟩ := ih (k + 1) i h
      refine ⟨j + 1, by omega, by simp only [List.length_cons]; omega, by simpa using hj3, ?_⟩
      intro m hm
      cases m with
      | zero =>
        simp only [List.getD_cons_zero]
        rcases hx with hx | hx
        · exact Or.inl hx
        · exact Or.inr (Or.inl hx)
      | succ m' =>
        simp only [List.getD_cons_succ]
        exact hj4 m' (by omega)
    · rw [if_neg hx] at h
      by_cases hc : ws.contains x
      · rw [if_pos hc] at h
        obtain ⟨j, hj1, hj2, hj3, hj4⟩ := ih (k + 1) i h
        refine ⟨j + 1, by omega, by simp only [List.length_cons]; omega, by simpa using hj3, ?_⟩
        intro m hm
        cases m with
        | zero =>
          simp only [List.getD_cons_zero]
          exact Or.inr (Or.inr (List.elem_iff.mp hc))
        | succ m' =>
          simp only [List.getD_cons_succ]
          exact hj4 m' (by omega)
      · rw [if_neg hc] at h
        injection h with hk
        simp only [not_or, Bool.not_eq_true] at hx
        refine ⟨0, by omega, by simp, ?_, by intro m hm; omega⟩
        simp only [List.getD_cons_zero]
        refine ⟨hx.1, hx.2, ?_⟩
        intro hmem
        exact hc (List.elem_iff.mpr hmem)

/-- The parameter-path loop returns the index computed from the first
canonical prefix the resolved path starts with that also produces a
real-identifier index. -/
theorem firstIndexOverPaths_spec (resolved idents : List String) :
    ∀ (paths : List (List String)) (i : Nat),
      firstIndexOverPaths resolved idents paths = some i →
      ∃ ws, ws ∈ paths ∧ sliceStartsWith resolved ws = true
        ∧ findRealIdentIdx ws idents 0 = some i := by
  intro paths
  induction paths with
  | nil => intro i h; simp [firstIndexOverPaths] at h
  | cons ws rest ih =>
    intro i h
    unfold firstIndexOverPaths indexOfFirstRealIdentAfterWords at h
    by_cases hs : sliceStartsWith resolved ws = true
    · rw [if_pos hs] at h
      cases hf : findRealIdentIdx ws idents 0 with
      | some i0 =>
        rw [hf] at h
        simp only [] at h
        exact ⟨ws, by simp, hs, by rw [hf, h]⟩
      | none =>
        rw [hf] at h
        simp only [] at h
        obtain ⟨ws', hmem, hsw, hfr⟩ := ih i h
        exact ⟨ws', by simp [hmem], hsw, hfr⟩
    · rw [if_neg hs] at h
      simp only [] at h
      obtain ⟨ws', hmem, hsw, hfr⟩ := ih i h
      exact ⟨ws', by simp [hmem], hsw, hfr⟩

/-- C6: the normalization pass rewrites the use `$p.MyKey`, declared via
`$p := .Params`, to `$p.mykey` — the `$p` segment and the `Params` text
stay untouched; and in general, whenever the replacement scan fires,
the rewrite lower-cases exactly the segments from the first one that is
neither empty, nor a '$'-variable, nor a literal word of the matched
canonical parameter-root prefix — a prefix the alias-resolved path
starts with. -/
theorem c6_params_keys_to_lower :
    (applyTemplateTransformers 100 exampleTemplateTree =
      TNode.listN
        [TNode.actionN (TNode.pipeN [["$p"]]
            [TNode.commandN [TArg.fieldArg ["Params"]]]),
         TNode.actionN (TNode.pipeN []
            [TNode.commandN [TArg.varArg ["$p", "mykey"]]])])
    ∧ ∀ (fuel : Nat) (d : declT) (idents : List String) (i : Nat),
        indexOfReplacementStart fuel d idents = some i →
        updateIdentsIfNeeded fuel d idents =
            idents.take i ++ (idents.drop i).map goToLower
          ∧ i < idents.length
          ∧ ∃ resolved, resolvedIdentsOf fuel d idents = some resolved
              ∧ ∃ ws, ws ∈ paramsPaths ∧ sliceStartsWith resolved ws = true
                ∧ (idents.getD i "" ≠ "" ∧ headCharIs '$' (idents.getD i "") = false
                   ∧ idents.getD i "" ∉ ws)
                ∧ ∀ m, m < i → (idents.getD m "" = "" ∨
                    headCharIs '$' (idents.getD m "") = true ∨ idents.getD m "" ∈ ws) := by
  constructor
  · rfl
  · intro fuel d idents i h
    have hupd : updateIdentsIfNeeded fuel d idents =
        idents.take i ++ (idents.drop i).map goToLower := by
      unfold updateIdentsIfNeeded
      rw [h]
    cases idents with
    | nil => simp [indexOfReplacementStart] at h
    | cons id0 rest =>
      have hcons : indexOfReplacementStart fuel d (id0 :: rest) =
          match resolveLoop d fuel (goSplitChar '.' id0) [] with
          | ResolveOut.outOfFuel => none
          | ResolveOut.abort => none
          | ResolveOut.resolved replaced =>
            firstIndexOverPaths (replaced ++ rest) (id0 :: rest) paramsPaths := rfl
      rw [hcons] at h
      cases hr : resolveLoop d fuel (goSplitChar '.' id0) [] with
      | outOfFuel => rw [hr] at h; simp at h
      | abort => rw [hr] at h; simp at h
      | resolved replaced =>
        rw [hr] at h
        simp only [] at h
        obtain ⟨ws, hmem, hsw, hfr⟩ :=
          firstIndexOverPaths_spec (replaced ++ rest) (id0 :: rest) paramsPaths i h
        obtain ⟨j, hj1, hj2, hj3, hj4⟩ :=
          findRealIdentIdx_spec ws (id0 :: rest) 0 i hfr
        have hij : i = j := by omega
        subst hij
        refine ⟨hupd, by simpa using hj2, replaced ++ rest, ?_, ws, hmem, hsw, hj3, hj4⟩
        have hcons2 : resolvedIdentsOf fuel d (id0 :: rest) =
            match resolveLoop d fuel (goSplitChar '.' id0) [] with
            | ResolveOut.resolved replaced => some (replaced ++ rest)
            | _ => none := rfl
        rw [hcons2, hr]

/-- C6 witness: the characterization applied to the concrete alias table
of the example template and the identifier path `$p.MyKey`. -/
theorem c6_witness :
    updateIdentsIfNeeded 100 [("$p", ".Params")] ["$p", "MyKey"] = ["$p", "mykey"] :=
  ((c6_params_keys_to_lower.2 100 [("$p", ".Params")] ["$p", "MyKey"] 1
      (by decide)).1).trans (by decide)

/-- C7: a build whose page materialization yields zero pages fails with the
no-content error raised inside metadata building; the phase trace ends
at `buildSiteMeta`, so no rendering phase runs and no template is
executed. -/
theorem c7_no_content_halts (env : BuildEnv) (h : createPages env = []) :
    siteBuild env =
      (some ("Unable to build site metadata, no pages found in directory " ++
        env.config.contentDir),
       [Phase.initStep, Phase.prepTemplates, Phase.createPages,
        Phase.setupPrevNext, Phase.buildSiteMeta])
    ∧ ∀ ph ∈ (siteBuild env).2, ph ∉ renderingPhases := by
  have hb : buildSiteMeta env (createPages env) =
      Except.error ("Unable to build site metadata, no pages found in directory " ++
        env.config.contentDir) := by
    rw [h]
    simp [buildSiteMeta]
  have hs : siteBuild env =
      (some ("Unable to build site metadata, no pages found in directory " ++
        env.config.contentDir),
       [Phase.initStep, Phase.prepTemplates, Phase.createPages,
        Phase.setupPrevNext, Phase.buildSiteMeta]) := by
    simp [siteBuild, siteProcess, hb]
  refine ⟨hs, ?_⟩
  intro ph hph
  rw [hs] at hph
  fin_cases hph <;> decide

/-- C7 witness: the concrete environment that discovers no content files. -/
theorem c7_witness :
    siteBuild { config := ⟨"content", false, []⟩, files := [],
                newPage := fun _ => defaultSitePage, sortPages := fun l => l,
                renderPagesErr := none } =
      (some ("Unable to build site metadata, no pages found in directory " ++ "content"),
       [Phase.initStep, Phase.prepTemplates, Phase.createPages,
        Phase.setupPrevNext, Phase.buildSiteMeta]) :=
  (c7_no_content_halts
    { config := ⟨"content", false, []⟩, files := [],
      newPage := fun _ => defaultSitePage, sortPages := fun l => l,
      renderPagesErr := none } rfl).1

/-- C10: the "Pages" data handed to the home template is always the first
nine of the sorted page sequence — the whole sequence when it is shorter
than nine, the nine-element head otherwise. -/
theorem c10_home_pages_first_nine (pages : List SitePage) :
    (renderHomePageNode pages).pagesData =
        (if pages.length < 9 then pages else pages.take 9)
    ∧ (renderHomePageNode pages).pagesData = pages.take 9 := by
  constructor
  · rfl
  · simp only [renderHomePageNode, homePagesData]
    split
    · rename_i hlt
      exact (List.take_of_length_le (by omega)).symm
    · rfl
